import Mathlib

/-!
Verification of the feed-execution core (`feed.py`): the `Entry` record,
the `Feed` classification state, the purge engine, the priority scheduler
and the execute/terminate/validate control flow, shallowly embedded in Lean.
-/

namespace Flexget

/-!
`Entry` embeds the Python class `Entry(dict)`: a string-keyed mapping with
insertion order, modelled as an association list without duplicate keys
(Python dict assignment replaces in place or appends).
-/

abbrev Entry := List (String × String)

/-- First-match association lookup; `none` models a `KeyError` on `self[key]`. -/
def Entry.lookup : Entry → String → Option String
  | [], _ => none
  | (k0, v0) :: rest, k => if k0 = k then some v0 else Entry.lookup rest k

/-- Plain `dict.__setitem__`: replace the value in place if the key is
present, otherwise append the pair at the end. -/
def Entry.dictSet : Entry → String → String → Entry
  | [], k, v => [(k, v)]
  | (k0, v0) :: rest, k, v =>
    if k0 = k then (k0, v) :: rest else (k0, v0) :: Entry.dictSet rest k v

/-- `Entry.__setitem__`: when the key is `url` and `original_url` is absent,
the value is first stored under `original_url`, then the plain dict set runs. -/
def Entry.setItem (e : Entry) (k v : String) : Entry :=
  if k = "url" ∧ (Entry.lookup e "original_url").isNone then
    Entry.dictSet (Entry.dictSet e "original_url" v) k v
  else Entry.dictSet e k v

/-- `Entry.safe_str`: formats `"%s | %s" % (self[title], self[url])`.
Indexing a missing key raises `KeyError`, modelled by `none`. -/
def Entry.safe_str (e : Entry) : Option String :=
  match Entry.lookup e "title", Entry.lookup e "url" with
  | some t, some u => some (t ++ " | " ++ u)
  | _, _ => none

/-- `Entry.isvalid`: `False` only when `title` is absent (the `url` branch
returns `True` either way in the source). -/
def Entry.isvalid (e : Entry) : Bool :=
  if (Entry.lookup e "title").isNone then false
  else if (Entry.lookup e "url").isNone then true
  else true

theorem Entry.lookup_dictSet (e : Entry) (k v k2 : String) :
    Entry.lookup (Entry.dictSet e k v) k2 =
      if k2 = k then some v else Entry.lookup e k2 := by
  induction e with
  | nil =>
    by_cases h : k2 = k
    · subst h; simp [Entry.dictSet, Entry.lookup]
    · simp [Entry.dictSet, Entry.lookup, h, Ne.symm h]
  | cons p rest ih =>
    obtain ⟨k0, v0⟩ := p
    by_cases h0 : k0 = k
    · subst h0
      by_cases h2 : k2 = k0
      · subst h2; simp [Entry.dictSet, Entry.lookup]
      · simp [Entry.dictSet, Entry.lookup, h2, Ne.symm h2]
    · by_cases h2 : k0 = k2
      · subst h2
        simp [Entry.dictSet, Entry.lookup, h0, Ne.symm h0]
      · simp [Entry.dictSet, Entry.lookup, h0, h2, ih]

/-- C8 (code_bug evidence): `safe_str` on an entry that has a `title` but no
`url` evaluates `self[url]`, which raises `KeyError` (modelled `none`); it
does not return a diagnostic string with a placeholder as the spec requires. -/
theorem c8_safe_str_keyerror_without_url :
    Entry.safe_str [("title", "t")] = none ∧
      Entry.isvalid [("title", "t")] = true := by
  constructor
  · rfl
  · rfl

/-- C4: the first assignment to `url` also stores the value under
`original_url`, and a second assignment to `url` leaves `original_url`
at the first value. -/
theorem c4_original_url_first_write_wins (e : Entry) (v1 v2 : String)
    (h : Entry.lookup e "original_url" = none) :
    Entry.lookup (Entry.setItem e "url" v1) "original_url" = some v1 ∧
    Entry.lookup (Entry.setItem (Entry.setItem e "url" v1) "url" v2)
      "original_url" = some v1 := by
  have hne : ("original_url" : String) ≠ "url" := by decide
  have h1 : Entry.setItem e "url" v1 =
      Entry.dictSet (Entry.dictSet e "original_url" v1) "url" v1 := by
    simp [Entry.setItem, h]
  have hl1 : Entry.lookup (Entry.setItem e "url" v1) "original_url" = some v1 := by
    rw [h1, Entry.lookup_dictSet, Entry.lookup_dictSet]
    simp [hne]
  refine ⟨hl1, ?_⟩
  have hset : ∀ (e2 : Entry) (k v : String),
      (Entry.lookup e2 "original_url").isNone = false →
      Entry.setItem e2 k v = Entry.dictSet e2 k v := by
    intro e2 k v hh
    simp [Entry.setItem, hh]
  rw [hset _ _ _ (by rw [hl1]; rfl), Entry.lookup_dictSet]
  simp [hne, hl1]

/-- C4 witness: a concrete entry exercising the theorem. -/
theorem c4_original_url_first_write_wins_witness :
    Entry.lookup (Entry.setItem (Entry.setItem [] "url" "a") "url" "b")
      "original_url" = some "a" :=
  (c4_original_url_first_write_wins [] "a" "b" rfl).2

/-!
The `Feed` execution core. Entries are kept abstract (`α` with decidable
equality, matching Python's `in`-membership by `==`); modules interact with
the feed through its classification API.
-/

/-- A configured sub-value for one keyword: either a scalar or a structured
mapping that may carry a `priority` override (the only field the core reads
for scheduling). -/
inductive ConfValue where
  | scalar (v : String)
  | dict (priority : Option Int)
deriving DecidableEq

/-- The feed's yaml configuration: keyword to sub-value. -/
abbrev Config := List (String × ConfValue)

/-- Outcome of one module call: normal return, a raised `ModuleWarning`
(logged, run continues), or any other unhandled exception (a fault). -/
inductive Outcome where
  | ok
  | warn
  | fault
deriving DecidableEq

/-- A primitive effect a module applies to the feed through its API. -/
inductive FeedAction (α : Type) where
  | accept (e : α)
  | filter (e : α)
  | reject (e : α)
  | fail (e : α)
  | produce (e : α)

/-- The mutable feed state of class `Feed` (`__abort` is `aborted`,
`__purged` is `purged`). `trace` instruments the dispatch loop with the
sequence of `(event, module-name)` module calls actually made; the
source's `current_event`/`current_module` diagnostics are subsumed by it.
`name`, `manager`, `config` and the persistence handle are threaded as
parameters instead of stored. -/
structure Feed (α : Type) where
  entries : List α
  accepted : List α
  filtered : List α
  rejected : List α
  failed : List α
  aborted : Bool
  purged : Nat
  trace : List (String × String)
deriving DecidableEq

/-- A registry module descriptor: name, builtin flag, handled events,
per-event default priorities, optional validator capability, and the
module's behavior when called for an event (the actions it performs via
the feed API plus how the call returns). -/
structure Module (α : Type) where
  name : String
  builtin : Bool
  events : List String
  priorities : List (String × Int)
  validator : Option (ConfValue → List String)
  behavior : String → Feed α → List (FeedAction α) × Outcome

/-- The manager collaborator: the fixed event sequence of a run and the
module registry in registration order. -/
structure Manager (α : Type) where
  events : List String
  modules : List (Module α)

/-- `manager.get_modules_by_event`: registry modules handling an event,
in registration order. -/
def Manager.getModulesByEvent (mgr : Manager α) (event : String) :
    List (Module α) :=
  mgr.modules.filter (fun m => decide (event ∈ m.events))

/-- `manager.modules.get(keyword)`: registry lookup by name. -/
def Manager.findModule (mgr : Manager α) (keyword : String) :
    Option (Module α) :=
  mgr.modules.find? (fun m => m.name = keyword)

/-- `Feed.accept`: no-op if already accepted; otherwise append to
`accepted` and, when present, remove the entry from `filtered` (the source
appends before checking `filtered`; the two writes are independent). -/
def Feed.accept [DecidableEq α] (s : Feed α) (e : α) : Feed α :=
  if e ∈ s.accepted then s
  else if e ∈ s.filtered then
    { s with accepted := s.accepted ++ [e], filtered := s.filtered.erase e }
  else { s with accepted := s.accepted ++ [e] }

/-- `Feed.filter`: append to `filtered` unless the entry is already
filtered or already accepted. -/
def Feed.filter [DecidableEq α] (s : Feed α) (e : α) : Feed α :=
  if e ∈ s.filtered ∨ e ∈ s.accepted then s
  else { s with filtered := s.filtered ++ [e] }

/-- `Feed.reject`: append to `rejected` if absent. -/
def Feed.reject [DecidableEq α] (s : Feed α) (e : α) : Feed α :=
  if e ∈ s.rejected then s
  else { s with rejected := s.rejected ++ [e] }

/-- `Feed.fail`: append to `failed` if absent (the external
`manager.add_failed` notification is out of scope). -/
def Feed.fail [DecidableEq α] (s : Feed α) (e : α) : Feed α :=
  if e ∈ s.failed then s
  else { s with failed := s.failed ++ [e] }

/-- The loop body of `Feed.__purge`: iterate over a copy (`todo`) of the
working set; each entry in `l` but not in `notIn` is removed (first
occurrence) from the live list, counting removals. -/
def Feed.purgeRun [DecidableEq α] (l notIn : List α) :
    List α → List α → List α × Nat
  | [], live => (live, 0)
  | e :: todo, live =>
    if e ∈ l ∧ e ∉ notIn then
      let r := Feed.purgeRun l notIn todo (live.erase e)
      (r.1, r.2 + 1)
    else Feed.purgeRun l notIn todo live

/-- `Feed.__purge(entries, not_in_list, count)` applied to the feed. -/
def Feed.purge [DecidableEq α] (s : Feed α) (l notIn : List α)
    (count : Bool) : Feed α :=
  let r := Feed.purgeRun l notIn s.entries s.entries
  { s with entries := r.1,
           purged := s.purged + (if count then r.2 else 0) }

/-- `Feed.__purge_rejected`: empty exemption list, counted. -/
def Feed.purgeRejected [DecidableEq α] (s : Feed α) : Feed α :=
  Feed.purge s s.rejected [] true

/-- `Feed.__purge_failed`: empty exemption list, not counted. -/
def Feed.purgeFailed [DecidableEq α] (s : Feed α) : Feed α :=
  Feed.purge s s.failed [] false

/-- `Feed._purge`: purge filtered entries, exempting accepted ones. -/
def Feed.purgeFiltered [DecidableEq α] (s : Feed α) : Feed α :=
  Feed.purge s s.filtered s.accepted true

/-- `Feed.__get_priority`: the module's declared default for the event
(0 when undeclared), overridden by a `priority` field when the module's
configured sub-value is a mapping that carries one. -/
def Feed.getPriority (cfg : Config) (m : Module α) (event : String) : Int :=
  let dflt := (m.priorities.lookup event).getD 0
  match cfg.lookup m.name with
  | some (ConfValue.dict (some pr)) => pr
  | some (ConfValue.dict none) => dflt
  | some (ConfValue.scalar _) => dflt
  | none => dflt

/-- The scheduler of `Feed.__run_event`: a stable ascending sort by
effective priority (Python's `list.sort` with the `cmp` comparator is
stable; a stable ascending sort with a total preorder is unique, here
realized by insertion sort) followed by `reverse()`. -/
def Feed.sortModules (cfg : Config) (event : String)
    (mods : List (Module α)) : List (Module α) :=
  (List.insertionSort
    (fun a b => Feed.getPriority cfg a event ≤ Feed.getPriority cfg b event)
    mods).reverse

/-- Apply one module-issued action through the feed API. -/
def Feed.applyAction [DecidableEq α] (s : Feed α) :
    FeedAction α → Feed α
  | FeedAction.accept e => Feed.accept s e
  | FeedAction.filter e => Feed.filter s e
  | FeedAction.reject e => Feed.reject s e
  | FeedAction.fail e => Feed.fail s e
  | FeedAction.produce e => { s with entries := s.entries ++ [e] }

/-- The `try/except` boundary around a module call: a normal return or a
`ModuleWarning` keeps the resulting state (the warning is only logged);
any other exception runs the handler (`self.abort()`). -/
def Feed.handleOutcome (onFault : Feed α → Feed α) (s : Feed α) :
    Outcome → Feed α
  | Outcome.ok => s
  | Outcome.warn => s
  | Outcome.fault => onFault s

/-- One iteration of the dispatch loop of `Feed.__run_event` for an
applicable module: record the call, apply the module's actions, handle its
outcome, then purge rejected and failed entries. -/
def Feed.stepModule [DecidableEq α] (onFault : Feed α → Feed α)
    (event : String) (m : Module α) (s : Feed α) : Feed α :=
  let s1 := { s with trace := s.trace ++ [(event, m.name)] }
  let br := m.behavior event s1
  Feed.purgeFailed (Feed.purgeRejected
    (Feed.handleOutcome onFault (br.1.foldl Feed.applyAction s1) br.2))

/-- The dispatch loop of `Feed.__run_event`: each module whose keyword is
configured or which is builtin is stepped, and the loop returns early when
the abort flag is set after the per-module purges. -/
def Feed.runModules [DecidableEq α] (onFault : Feed α → Feed α)
    (ck : List String) (event : String) :
    List (Module α) → Feed α → Feed α
  | [], s => s
  | m :: rest, s =>
    if m.name ∈ ck ∨ m.builtin then
      if (Feed.stepModule onFault event m s).aborted then
        Feed.stepModule onFault event m s
      else
        Feed.runModules onFault ck event rest
          (Feed.stepModule onFault event m s)
    else Feed.runModules onFault ck event rest s

/-- `Feed.__run_event`: sort the event's registry modules and dispatch.
The fuel bounds the re-entrant `abort()` dispatch (`abort` raises no
exception itself; exhausted fuel models the interpreter's recursion
limit and is never reached in the developments below). On a fault the
handler runs `self.abort()`: set the abort flag, then dispatch the
`abort` event. -/
def Feed.runEvent [DecidableEq α] :
    Nat → Manager α → Config → String → Feed α → Feed α
  | 0, _, _, _, s => s
  | fuel + 1, mgr, cfg, event, s =>
    Feed.runModules
      (fun s2 => Feed.runEvent fuel mgr cfg "abort" { s2 with aborted := true })
      (cfg.map Prod.fst) event
      (Feed.sortModules cfg event (mgr.getModulesByEvent event)) s

/-- `Feed.abort`: set the abort flag (logging aside), then run the
`abort` event so modules can react. -/
def Feed.doAbort [DecidableEq α] (fuel : Nat) (mgr : Manager α)
    (cfg : Config) (s : Feed α) : Feed α :=
  Feed.runEvent fuel mgr cfg "abort" { s with aborted := true }

/-- `Feed.validate`: for every configured keyword, an unknown module
records `Unknown keyword '<kw>'`; a module without a validator only logs a
warning; otherwise the validator's messages are collected prefixed by the
keyword. If any errors were collected, `abort()` is called. Returns the
collected error list alongside the resulting state. -/
def Feed.validateFeed [DecidableEq α] (fuel : Nat) (mgr : Manager α)
    (cfg : Config) (s : Feed α) : List String × Feed α :=
  let errs := cfg.foldl
    (fun acc kv =>
      match mgr.findModule kv.1 with
      | none => acc ++ ["Unknown keyword \x27" ++ kv.1 ++ "\x27"]
      | some m =>
        match m.validator with
        | none => acc
        | some v =>
          let es := v kv.2
          if es.isEmpty then acc
          else acc ++ es.map (fun msg => kv.1 ++ " " ++ msg)) []
  if errs.isEmpty then (errs, s)
  else (errs, Feed.doAbort fuel mgr cfg s)

/-- The event loop of `Feed.execute`: in learn mode the `download` and
`output` events are skipped (logging only); otherwise run the event's
modules, purge filtered entries between events, and stop once the abort
flag is set. -/
def Feed.runEvents [DecidableEq α] (fuel : Nat) (mgr : Manager α)
    (learn : Bool) (cfg : Config) :
    List String → Feed α → Feed α
  | [], s => s
  | ev :: rest, s =>
    if learn ∧ (ev = "download" ∨ ev = "output") then
      Feed.runEvents fuel mgr learn cfg rest s
    else
      let s1 := Feed.runEvent fuel mgr cfg ev s
      let s2 := Feed.purgeFiltered s1
      if s2.aborted then s2
      else Feed.runEvents fuel mgr learn cfg rest s2

/-- `Feed.execute`: validate the configuration first; return if aborted;
in validate-only mode report and return when there were no errors;
otherwise run the manager's events in order. -/
def Feed.execute [DecidableEq α] (fuel : Nat) (mgr : Manager α)
    (validateOnly learn : Bool) (cfg : Config) (s : Feed α) : Feed α :=
  let r := Feed.validateFeed fuel mgr cfg s
  if r.2.aborted then r.2
  else if validateOnly ∧ r.1.isEmpty then r.2
  else Feed.runEvents fuel mgr learn cfg mgr.events r.2

/-- `Feed.terminate`: return immediately when the feed was aborted,
otherwise run the `terminate` event. -/
def Feed.terminate [DecidableEq α] (fuel : Nat) (mgr : Manager α)
    (cfg : Config) (s : Feed α) : Feed α :=
  if s.aborted then s else Feed.runEvent fuel mgr cfg "terminate" s

/-!
Correctness of the purge primitive: the iterate-copy-and-remove loop of
`Feed.__purge` removes exactly the entries matching the purge condition.
-/

theorem filter_erase_of_pred_false [DecidableEq α] (p : α → Bool) (e : α)
    (hp : p e = false) :
    ∀ live : List α, (live.erase e).filter p = live.filter p := by
  intro live
  induction live with
  | nil => rfl
  | cons b bs ih =>
    by_cases hbe : b = e
    · subst hbe
      rw [List.erase_cons_head, List.filter_cons, if_neg (by simp [hp])]
    · rw [List.erase_cons_tail (by simpa using hbe), List.filter_cons,
        List.filter_cons, ih]

theorem Feed.purgeRun_fst [DecidableEq α] (l notIn : List α) :
    ∀ todo live : List α,
      (∀ a, a ∈ l → a ∉ notIn → live.count a ≤ todo.count a) →
      (Feed.purgeRun l notIn todo live).1 =
        live.filter (fun a => decide ¬(a ∈ l ∧ a ∉ notIn)) := by
  intro todo
  induction todo with
  | nil =>
    intro live h
    have : ∀ a ∈ live, (fun a => decide ¬(a ∈ l ∧ a ∉ notIn)) a = true := by
      intro a ha
      by_contra hc
      simp only [decide_eq_true_eq, not_not] at hc
      have h1 := h a hc.1 hc.2
      have h2 : 0 < live.count a := List.count_pos_iff.mpr ha
      simp at h1
      omega
    simp only [Feed.purgeRun]
    exact (List.filter_eq_self.mpr this).symm
  | cons e todo ih =>
    intro live h
    by_cases he : e ∈ l ∧ e ∉ notIn
    · have hstep : (Feed.purgeRun l notIn (e :: todo) live).1 =
          (Feed.purgeRun l notIn todo (live.erase e)).1 := by
        simp [Feed.purgeRun, he]
      rw [hstep, ih (live.erase e) ?_,
        filter_erase_of_pred_false _ e (by simp [he.1, he.2])]
      intro a hal han
      have hc := h a hal han
      rw [List.count_cons] at hc
      by_cases hae : a = e
      · subst hae
        rw [List.count_erase_self]
        simp at hc
        omega
      · rw [List.count_erase_of_ne hae]
        simp [Ne.symm hae] at hc
        omega
    · have hstep : (Feed.purgeRun l notIn (e :: todo) live).1 =
          (Feed.purgeRun l notIn todo live).1 := by
        simp [Feed.purgeRun, he]
      rw [hstep, ih live ?_]
      intro a hal han
      have hc := h a hal han
      rw [List.count_cons] at hc
      have hae : ¬(e == a) := by
        by_contra hb
        simp at hb
        subst hb
        exact he ⟨hal, han⟩
      rw [if_neg hae] at hc
      omega

theorem Feed.purge_entries [DecidableEq α] (s : Feed α) (l notIn : List α)
    (c : Bool) :
    (Feed.purge s l notIn c).entries =
      s.entries.filter (fun a => decide ¬(a ∈ l ∧ a ∉ notIn)) :=
  Feed.purgeRun_fst l notIn s.entries s.entries (fun _ _ _ => le_refl _)

theorem Feed.mem_purge_entries [DecidableEq α] {s : Feed α}
    {l notIn : List α} {c : Bool} {a : α} :
    a ∈ (Feed.purge s l notIn c).entries ↔
      a ∈ s.entries ∧ ¬(a ∈ l ∧ a ∉ notIn) := by
  rw [Feed.purge_entries]
  simp
  tauto

/-!
Frame facts: purges touch only `entries` and `purged`; classification
actions touch neither the abort flag nor the call trace.
-/

theorem Feed.purge_frame [DecidableEq α] (s : Feed α) (l notIn : List α)
    (c : Bool) :
    (Feed.purge s l notIn c).accepted = s.accepted ∧
    (Feed.purge s l notIn c).filtered = s.filtered ∧
    (Feed.purge s l notIn c).rejected = s.rejected ∧
    (Feed.purge s l notIn c).failed = s.failed ∧
    (Feed.purge s l notIn c).aborted = s.aborted ∧
    (Feed.purge s l notIn c).trace = s.trace :=
  ⟨rfl, rfl, rfl, rfl, rfl, rfl⟩

theorem Feed.accept_frame [DecidableEq α] (s : Feed α) (e : α) :
    (Feed.accept s e).aborted = s.aborted ∧
    (Feed.accept s e).trace = s.trace := by
  unfold Feed.accept
  split_ifs <;> exact ⟨rfl, rfl⟩

theorem Feed.filter_frame [DecidableEq α] (s : Feed α) (e : α) :
    (Feed.filter s e).aborted = s.aborted ∧
    (Feed.filter s e).trace = s.trace := by
  unfold Feed.filter
  split_ifs <;> exact ⟨rfl, rfl⟩

theorem Feed.reject_frame [DecidableEq α] (s : Feed α) (e : α) :
    (Feed.reject s e).aborted = s.aborted ∧
    (Feed.reject s e).trace = s.trace := by
  unfold Feed.reject
  split_ifs <;> exact ⟨rfl, rfl⟩

theorem Feed.fail_frame [DecidableEq α] (s : Feed α) (e : α) :
    (Feed.fail s e).aborted = s.aborted ∧
    (Feed.fail s e).trace = s.trace := by
  unfold Feed.fail
  split_ifs <;> exact ⟨rfl, rfl⟩

theorem Feed.applyAction_frame [DecidableEq α] (s : Feed α)
    (a : FeedAction α) :
    (Feed.applyAction s a).aborted = s.aborted ∧
    (Feed.applyAction s a).trace = s.trace := by
  cases a with
  | accept e => exact Feed.accept_frame s e
  | filter e => exact Feed.filter_frame s e
  | reject e => exact Feed.reject_frame s e
  | fail e => exact Feed.fail_frame s e
  | produce e => exact ⟨rfl, rfl⟩

theorem Feed.foldl_applyAction_frame [DecidableEq α]
    (acts : List (FeedAction α)) :
    ∀ s : Feed α,
      (acts.foldl Feed.applyAction s).aborted = s.aborted ∧
      (acts.foldl Feed.applyAction s).trace = s.trace := by
  induction acts with
  | nil => intro s; exact ⟨rfl, rfl⟩
  | cons a acts ih =>
    intro s
    have h1 := Feed.applyAction_frame s a
    have h2 := ih (Feed.applyAction s a)
    simp only [List.foldl_cons]
    exact ⟨h2.1.trans h1.1, h2.2.trans h1.2⟩

/-- C3: an entry that is both rejected and accepted is removed from the
working set by the rejected-purge (which `__run_event` runs after every
module call with an empty exemption list): rejection dominates acceptance. -/
theorem c3_rejection_dominates_acceptance {α : Type} [DecidableEq α]
    (s : Feed α) (e : α) (hr : e ∈ s.rejected) (ha : e ∈ s.accepted) :
    e ∉ (Feed.purgeRejected s).entries := by
  intro hmem
  have h := Feed.mem_purge_entries.mp hmem
  exact h.2 ⟨hr, by simp⟩

def sC3 : Feed Nat :=
  ⟨[1, 2], [1], [], [1], [], false, 0, []⟩

/-- C3 witness: a concrete feed state with entry 1 both rejected and
accepted. -/
theorem c3_rejection_dominates_acceptance_witness :
    1 ∈ sC3.rejected ∧ 1 ∈ sC3.accepted ∧
      1 ∉ (Feed.purgeRejected sC3).entries :=
  ⟨by decide, by decide,
    c3_rejection_dominates_acceptance sC3 1 (by decide) (by decide)⟩

/-- C9: `reject` mutates only the rejected list (appending when absent),
leaving the working set and every other classification list, the abort
flag, the purge counter and the call trace unchanged; the entry leaves the
working set only at a rejected-purge point. -/
theorem c9_reject_frame_effect {α : Type} [DecidableEq α] (s : Feed α)
    (e : α) :
    (Feed.reject s e).entries = s.entries ∧
    (Feed.reject s e).accepted = s.accepted ∧
    (Feed.reject s e).filtered = s.filtered ∧
    (Feed.reject s e).failed = s.failed ∧
    (Feed.reject s e).aborted = s.aborted ∧
    (Feed.reject s e).purged = s.purged ∧
    (Feed.reject s e).trace = s.trace ∧
    (Feed.reject s e).rejected =
      (if e ∈ s.rejected then s.rejected else s.rejected ++ [e]) ∧
    e ∉ (Feed.purgeRejected (Feed.reject s e)).entries := by
  have hmem : e ∈ (Feed.reject s e).rejected := by
    unfold Feed.reject
    split_ifs with h
    · exact h
    · simp
  unfold Feed.reject
  split_ifs with h <;>
    refine ⟨rfl, rfl, rfl, rfl, rfl, rfl, rfl, rfl, ?_⟩ <;>
    · intro hmem2
      have hp := Feed.mem_purge_entries.mp hmem2
      refine hp.2 ⟨?_, by simp⟩
      simpa [Feed.reject, h] using hmem

/-- The accepted/filtered exclusivity invariant, together with the
no-duplicates property of `filtered` that the guarded appends maintain. -/
def Feed.Inv (s : Feed α) : Prop :=
  s.filtered.Nodup ∧ ∀ a, a ∈ s.accepted → a ∉ s.filtered

/-- C6: every classification operation preserves the mutual-exclusivity
invariant of `accepted` and `filtered`; `accept` removes the entry from
`filtered`, and `filter` is a no-op on an already-accepted (or already
filtered) entry. -/
theorem c6_accept_filter_exclusivity {α : Type} [DecidableEq α]
    (s : Feed α) (e : α) (h : Feed.Inv s) :
    Feed.Inv (Feed.accept s e) ∧ Feed.Inv (Feed.filter s e) ∧
    Feed.Inv (Feed.reject s e) ∧ Feed.Inv (Feed.fail s e) ∧
    (e ∈ s.accepted → Feed.filter s e = s) ∧
    (∀ a, a ∈ (Feed.accept s e).accepted → a ∉ (Feed.accept s e).filtered) := by
  obtain ⟨hnd, hx⟩ := h
  have hacc : Feed.Inv (Feed.accept s e) := by
    unfold Feed.accept
    split_ifs with h1 h2
    · exact ⟨hnd, hx⟩
    · refine ⟨hnd.erase e, ?_⟩
      intro a ha
      rcases List.mem_append.mp ha with ha2 | ha2
      · exact fun hc => hx a ha2 (List.mem_of_mem_erase hc)
      · have hae : a = e := by simpa using ha2
        subst hae
        exact hnd.not_mem_erase
    · refine ⟨hnd, ?_⟩
      intro a ha
      rcases List.mem_append.mp ha with ha2 | ha2
      · exact hx a ha2
      · have hae : a = e := by simpa using ha2
        subst hae
        exact h2
  have hrej : Feed.Inv (Feed.reject s e) := by
    unfold Feed.reject
    split_ifs <;> exact ⟨hnd, hx⟩
  have hfail : Feed.Inv (Feed.fail s e) := by
    unfold Feed.fail
    split_ifs <;> exact ⟨hnd, hx⟩
  refine ⟨hacc, ?_, hrej, hfail, ?_, fun a => (hacc.2 a)⟩
  · unfold Feed.filter
    split_ifs with h1
    · exact ⟨hnd, hx⟩
    · push_neg at h1
      refine ⟨?_, ?_⟩
      · exact List.Nodup.append hnd (List.nodup_singleton e)
          (by intro a ha hae; simp at hae; subst hae; exact h1.1 ha)
      · intro a ha hc
        rcases List.mem_append.mp hc with hc2 | hc2
        · exact hx a ha hc2
        · have hae : a = e := by simpa using hc2
          subst hae
          exact h1.2 ha
  · intro ha
    unfold Feed.filter
    rw [if_pos (Or.inr ha)]

def sC6 : Feed Nat :=
  ⟨[1, 2], [1], [2], [], [], false, 0, []⟩

/-- C6 witness: the invariant holds for a concrete state and is preserved
by each operation on entry 2. -/
theorem c6_accept_filter_exclusivity_witness :
    Feed.Inv sC6 ∧
      (Feed.Inv (Feed.accept sC6 2) ∧ Feed.Inv (Feed.filter sC6 2) ∧
       Feed.Inv (Feed.reject sC6 2) ∧ Feed.Inv (Feed.fail sC6 2) ∧
       (2 ∈ sC6.accepted → Feed.filter sC6 2 = sC6) ∧
       (∀ a, a ∈ (Feed.accept sC6 2).accepted →
          a ∉ (Feed.accept sC6 2).filtered)) := by
  have hinv : Feed.Inv sC6 := by
    refine ⟨by decide, ?_⟩
    intro a ha
    have : a = 1 := by simpa [sC6] using ha
    subst this
    decide
  exact ⟨hinv, c6_accept_filter_exclusivity sC6 2 hinv⟩

/-!
Concrete scenarios. Entries are natural numbers; the initial feed state is
empty, as `Feed.__init__` builds it.
-/

def feed0 : Feed Nat :=
  ⟨[], [], [], [], [], false, 0, []⟩

def modA : Module Nat :=
  ⟨"A", false, ["filter"], [("filter", 5)], none,
    fun _ _ => ([], Outcome.ok)⟩

def modB : Module Nat :=
  ⟨"B", false, ["filter"], [("filter", 10)], none,
    fun _ _ => ([], Outcome.ok)⟩

def modC : Module Nat :=
  ⟨"C", false, ["filter"], [("filter", 5)], none,
    fun _ _ => ([], Outcome.ok)⟩

def mgrC1 : Manager Nat :=
  ⟨["filter"], [modA, modB, modC]⟩

def cfgC1 : Config :=
  [("A", ConfValue.scalar "x"), ("B", ConfValue.scalar "x"),
   ("C", ConfValue.scalar "x")]

/-- C1 counterexample: with modules A (priority 5), B (priority 10) and
C (priority 5, registered after A), the dispatch order is B, C, A — the
stable ascending sort followed by `reverse()` reverses the registration
order of equal priorities — refuting the claimed order B, A, C. -/
theorem c1_dispatch_order_counterexample :
    (Feed.runEvent 5 mgrC1 cfgC1 "filter" feed0).trace.map Prod.snd =
      ["B", "C", "A"] ∧
    (Feed.runEvent 5 mgrC1 cfgC1 "filter" feed0).trace.map Prod.snd ≠
      ["B", "A", "C"] := by
  constructor
  · decide
  · decide

/-- C1 amended: dispatch is in descending effective priority, but among
modules of equal effective priority the dispatch order is the reverse of
the registry's original relative order; for A (5), B (10), C (5,
registered after A) the dispatch order is B, C, A. -/
theorem c1_descending_priority_dispatch :
    (∀ (α : Type) (cfg : Config) (ev : String) (mods : List (Module α)),
      List.Sorted
        (fun a b => Feed.getPriority cfg b ev ≤ Feed.getPriority cfg a ev)
        (Feed.sortModules cfg ev mods)) ∧
    (Feed.runEvent 5 mgrC1 cfgC1 "filter" feed0).trace.map Prod.snd =
      ["B", "C", "A"] := by
  constructor
  · intro α cfg ev mods
    haveI : IsTotal (Module α)
        (fun a b => Feed.getPriority cfg a ev ≤ Feed.getPriority cfg b ev) :=
      ⟨fun a b => Int.le_total _ _⟩
    haveI : IsTrans (Module α)
        (fun a b => Feed.getPriority cfg a ev ≤ Feed.getPriority cfg b ev) :=
      ⟨fun _ _ _ hab hbc => le_trans hab hbc⟩
    show List.Pairwise _ _
    exact List.pairwise_reverse.mpr
      (List.sorted_insertionSort
        (fun a b => Feed.getPriority cfg a ev ≤ Feed.getPriority cfg b ev)
        mods)
  · decide

def modIn : Module Nat :=
  ⟨"inp", false, ["input"], [], none,
    fun _ _ => ([FeedAction.produce 1], Outcome.ok)⟩

def modFlt : Module Nat :=
  ⟨"flt", false, ["filter"], [], none,
    fun _ _ => ([], Outcome.fault)⟩

def modDl : Module Nat :=
  ⟨"dl", false, ["download"], [], none,
    fun _ _ => ([], Outcome.ok)⟩

def modOut : Module Nat :=
  ⟨"out", false, ["output"], [], none,
    fun _ _ => ([], Outcome.ok)⟩

def modTrm : Module Nat :=
  ⟨"trm", false, ["terminate"], [], none,
    fun _ _ => ([], Outcome.ok)⟩

def mgrC2 : Manager Nat :=
  ⟨["input", "filter", "download", "output"],
   [modIn, modFlt, modDl, modOut, modTrm]⟩

def cfgC2 : Config :=
  [("inp", ConfValue.scalar "x"), ("flt", ConfValue.scalar "x"),
   ("dl", ConfValue.scalar "x"), ("out", ConfValue.scalar "x"),
   ("trm", ConfValue.scalar "x")]

/-- The run of the C2 scenario: a module faults during the filter phase. -/
def exeC2 : Feed Nat :=
  Feed.execute 5 mgrC2 false false cfgC2 feed0

/-- C2 counterexample: after the fault has aborted the run, calling
`terminate()` does not execute the teardown phase at all — the number of
`terminate`-phase module calls is 0, not the claimed exactly 1. -/
theorem c2_terminate_after_abort_counterexample :
    exeC2.aborted = true ∧
    ((Feed.terminate 5 mgrC2 cfgC2 exeC2).trace.filter
        (fun c => decide (c.1 = "terminate"))).length ≠ 1 := by
  constructor
  · decide
  · decide

/-- C2 amended: a module fault during the filter phase aborts the run —
no module of a later phase executes — and a subsequent `terminate()` call
is a no-op on an aborted feed: the teardown phase does not execute. -/
theorem c2_fault_aborts_run_terminate_noop :
    exeC2.trace = [("input", "inp"), ("filter", "flt")] ∧
    exeC2.aborted = true ∧
    Feed.terminate 5 mgrC2 cfgC2 exeC2 = exeC2 ∧
    (∀ (α : Type) (inst : DecidableEq α) (fuel : Nat) (mgr : Manager α)
        (cfg : Config) (s : Feed α),
      Feed.terminate fuel mgr cfg { s with aborted := true } =
        { s with aborted := true }) := by
  refine ⟨by decide, by decide, by decide, ?_⟩
  intro α inst fuel mgr cfg s
  rfl

def modFil1 : Module Nat :=
  ⟨"m1", false, ["filter"], [("filter", 10)], none,
    fun _ _ => ([FeedAction.filter 1, FeedAction.filter 2], Outcome.ok)⟩

def modAcc2 : Module Nat :=
  ⟨"m2", false, ["filter"], [("filter", 5)], none,
    fun _ _ => ([FeedAction.accept 1], Outcome.ok)⟩

def mgrC5 : Manager Nat :=
  ⟨["filter"], [modFil1, modAcc2]⟩

def cfgC5 : Config :=
  [("m1", ConfValue.scalar "x"), ("m2", ConfValue.scalar "x")]

def feedC5 : Feed Nat :=
  ⟨[1, 2], [], [], [], [], false, 0, []⟩

theorem Feed.accept_entries [DecidableEq α] (s : Feed α) (e : α) :
    (Feed.accept s e).entries = s.entries := by
  unfold Feed.accept
  split_ifs <;> rfl

theorem Feed.mem_accept_accepted [DecidableEq α] (s : Feed α) (e : α) :
    e ∈ (Feed.accept s e).accepted := by
  unfold Feed.accept
  split_ifs with h1 <;> simp [h1]

/-- C5: the filtered-purge removes exactly the entries that are filtered
and not accepted; an entry accepted after having been filtered survives a
subsequent filtered-purge; and in a concrete phase where one module
filters entries 1 and 2 and a later module of the same phase accepts
entry 1, the purge runs only at the end of the phase, so entry 1 survives
the whole phase while entry 2 is removed. -/
theorem c5_filtered_purge_semantics {α : Type} [DecidableEq α]
    (s : Feed α) (e : α) (he : e ∈ s.entries) :
    (∀ a, a ∈ (Feed.purgeFiltered s).entries ↔
        a ∈ s.entries ∧ ¬(a ∈ s.filtered ∧ a ∉ s.accepted)) ∧
    e ∈ (Feed.purgeFiltered (Feed.accept s e)).entries ∧
    (Feed.runEvents 5 mgrC5 false cfgC5 ["filter"] feedC5).entries = [1] ∧
    (Feed.runEvents 5 mgrC5 false cfgC5 ["filter"] feedC5).trace =
      [("filter", "m1"), ("filter", "m2")] ∧
    (Feed.runEvents 5 mgrC5 false cfgC5 ["filter"] feedC5).purged = 1 := by
  refine ⟨fun a => Feed.mem_purge_entries, ?_, by decide, by decide, by decide⟩
  refine Feed.mem_purge_entries.mpr ⟨?_, ?_⟩
  · rw [Feed.accept_entries]
    exact he
  · intro hc
    exact hc.2 (Feed.mem_accept_accepted s e)

def feedC5b : Feed Nat :=
  ⟨[3, 4], [], [3, 4], [], [], false, 0, []⟩

/-- C5 witness: entry 3 is in the working set of a feed that has filtered
entries 3 and 4; the theorem applies to it. -/
theorem c5_filtered_purge_semantics_witness :
    3 ∈ feedC5b.entries ∧
      ((∀ a, a ∈ (Feed.purgeFiltered feedC5b).entries ↔
          a ∈ feedC5b.entries ∧ ¬(a ∈ feedC5b.filtered ∧ a ∉ feedC5b.accepted)) ∧
       3 ∈ (Feed.purgeFiltered (Feed.accept feedC5b 3)).entries ∧
       (Feed.runEvents 5 mgrC5 false cfgC5 ["filter"] feedC5).entries = [1] ∧
       (Feed.runEvents 5 mgrC5 false cfgC5 ["filter"] feedC5).trace =
         [("filter", "m1"), ("filter", "m2")] ∧
       (Feed.runEvents 5 mgrC5 false cfgC5 ["filter"] feedC5).purged = 1) :=
  ⟨by decide, c5_filtered_purge_semantics feedC5b 3 (by decide)⟩

def modBi : Module Nat :=
  ⟨"bi", true, ["input", "filter"], [], none,
    fun _ _ => ([], Outcome.ok)⟩

def mgrC7 : Manager Nat :=
  ⟨["input", "filter"], [modBi]⟩

def cfgC7 : Config :=
  [("alpha", ConfValue.scalar "x")]

/-- C7: a configuration whose only key `alpha` is unknown to the registry
makes `validate()` return exactly the error `Unknown keyword 'alpha'` and
abort; `execute()` then runs no phase (its trace stays empty), although a
builtin module would have been dispatched in both phases had the run not
been aborted. -/
theorem c7_unknown_keyword_aborts_run :
    (Feed.validateFeed 5 mgrC7 cfgC7 feed0).1 =
      ["Unknown keyword \x27alpha\x27"] ∧
    (Feed.validateFeed 5 mgrC7 cfgC7 feed0).2.aborted = true ∧
    (Feed.execute 5 mgrC7 false false cfgC7 feed0).aborted = true ∧
    (Feed.execute 5 mgrC7 false false cfgC7 feed0).trace = [] ∧
    (Feed.runEvents 5 mgrC7 false cfgC7 mgrC7.events feed0).trace =
      [("input", "bi"), ("filter", "bi")] := by
  refine ⟨by decide, by decide, by decide, by decide, by decide⟩

/-!
C10: `abort()` sets the abort flag before dispatching the `abort` event,
and the dispatch loop re-checks the flag after every module call, so that
dispatch invokes at most one applicable module.
-/

theorem Feed.handleOutcome_of_ne_fault (onFault : Feed α → Feed α)
    (s : Feed α) (o : Outcome) (h : o ≠ Outcome.fault) :
    Feed.handleOutcome onFault s o = s := by
  cases o with
  | ok => rfl
  | warn => rfl
  | fault => exact absurd rfl h

theorem Feed.stepModule_no_fault [DecidableEq α] (onFault : Feed α → Feed α)
    (ev : String) (m : Module α) (s : Feed α)
    (hnf : ∀ st : Feed α, (m.behavior ev st).2 ≠ Outcome.fault) :
    (Feed.stepModule onFault ev m s).aborted = s.aborted ∧
    (Feed.stepModule onFault ev m s).trace = s.trace ++ [(ev, m.name)] := by
  show (Feed.purgeFailed (Feed.purgeRejected
      (Feed.handleOutcome onFault
        ((m.behavior ev { s with trace := s.trace ++ [(ev, m.name)] }).1.foldl
          Feed.applyAction { s with trace := s.trace ++ [(ev, m.name)] })
        (m.behavior ev { s with trace := s.trace ++ [(ev, m.name)] }).2))).aborted
      = s.aborted ∧
    (Feed.purgeFailed (Feed.purgeRejected
      (Feed.handleOutcome onFault
        ((m.behavior ev { s with trace := s.trace ++ [(ev, m.name)] }).1.foldl
          Feed.applyAction { s with trace := s.trace ++ [(ev, m.name)] })
        (m.behavior ev { s with trace := s.trace ++ [(ev, m.name)] }).2))).trace
      = s.trace ++ [(ev, m.name)]
  rw [Feed.handleOutcome_of_ne_fault onFault _ _ (hnf _)]
  have hf := Feed.foldl_applyAction_frame
    (m.behavior ev { s with trace := s.trace ++ [(ev, m.name)] }).1
    { s with trace := s.trace ++ [(ev, m.name)] }
  exact ⟨hf.1, hf.2⟩

theorem Feed.runModules_after_abort [DecidableEq α]
    (onFault : Feed α → Feed α) (ck : List String) (ev : String) :
    ∀ (mods : List (Module α)) (s : Feed α),
      s.aborted = true →
      (∀ m ∈ mods, ∀ st : Feed α, (m.behavior ev st).2 ≠ Outcome.fault) →
      (Feed.runModules onFault ck ev mods s).aborted = true ∧
      (Feed.runModules onFault ck ev mods s).trace.length ≤
        s.trace.length + 1 := by
  intro mods
  induction mods with
  | nil =>
    intro s hs _
    exact ⟨hs, Nat.le_succ _⟩
  | cons m rest ih =>
    intro s hs hnf
    by_cases happ : m.name ∈ ck ∨ m.builtin
    · have hstep := Feed.stepModule_no_fault onFault ev m s
        (hnf m (by simp))
      have habort : (Feed.stepModule onFault ev m s).aborted = true :=
        hstep.1.trans hs
      have heq : Feed.runModules onFault ck ev (m :: rest) s =
          Feed.stepModule onFault ev m s := by
        rw [Feed.runModules, if_pos happ, if_pos habort]
      rw [heq, hstep.2]
      simp [habort]
    · have heq : Feed.runModules onFault ck ev (m :: rest) s =
          Feed.runModules onFault ck ev rest s := by
        rw [Feed.runModules, if_neg happ]
      rw [heq]
      exact ih s hs (fun m2 hm2 => hnf m2 (List.mem_cons_of_mem m hm2))

/-- C10: `abort()` sets the abort flag before dispatching the `abort`
event; since the dispatch loop re-checks the flag after every module call,
at most one applicable module is invoked during the abort-notification
dispatch (here: when no applicable module faults again during it),
regardless of how many modules handle the event. -/
theorem c10_abort_dispatch_at_most_one_call {α : Type} [DecidableEq α]
    (fuel : Nat) (mgr : Manager α) (cfg : Config) (s : Feed α)
    (hnf : ∀ m ∈ mgr.getModulesByEvent "abort",
      ∀ st : Feed α, (m.behavior "abort" st).2 ≠ Outcome.fault) :
    (Feed.doAbort fuel mgr cfg s).aborted = true ∧
    (Feed.doAbort fuel mgr cfg s).trace.length ≤ s.trace.length + 1 := by
  cases fuel with
  | zero => exact ⟨rfl, Nat.le_succ _⟩
  | succ n =>
    have hmem : ∀ m ∈ Feed.sortModules cfg "abort"
        (mgr.getModulesByEvent "abort"),
        ∀ st : Feed α, (m.behavior "abort" st).2 ≠ Outcome.fault := by
      intro m hm
      exact hnf m ((List.perm_insertionSort
        (fun a b =>
          Feed.getPriority cfg a "abort" ≤ Feed.getPriority cfg b "abort")
        (mgr.getModulesByEvent "abort")).mem_iff.mp
          (List.mem_reverse.mp hm))
    exact Feed.runModules_after_abort _ _ "abort" _
      { s with aborted := true } rfl hmem

def mgrC10 : Manager Nat :=
  ⟨["input"],
   [⟨"ab1", true, ["abort"], [], none, fun _ _ => ([], Outcome.ok)⟩,
    ⟨"ab2", true, ["abort"], [], none, fun _ _ => ([], Outcome.ok)⟩,
    ⟨"ab3", true, ["abort"], [], none, fun _ _ => ([], Outcome.ok)⟩]⟩

/-- C10 witness: three builtin modules handle the abort event, none
faulting; the dispatch after `abort()` still makes at most one call. -/
theorem c10_abort_dispatch_at_most_one_call_witness :
    (Feed.doAbort 1 mgrC10 [] feed0).aborted = true ∧
    (Feed.doAbort 1 mgrC10 [] feed0).trace.length ≤
      feed0.trace.length + 1 := by
  refine c10_abort_dispatch_at_most_one_call 1 mgrC10 [] feed0 ?_
  intro m hm st
  have hm2 : m ∈ mgrC10.modules := List.mem_of_mem_filter hm
  simp only [mgrC10, List.mem_cons, List.not_mem_nil, or_false] at hm2
  rcases hm2 with h | h | h <;> rw [h] <;> simp

end Flexget
